import Mathlib

/-!
Verification development for the auto-configuration core of the lint
config initializer (lib/init/config-initializer.js).

The orchestration function configureRules and the memoized lookup
getPeerDependencies are embedded from the source.  The registry operations
it calls (autoconfig.Registry: lintSourceCode, getFailingRulesRegistry,
stripFailingConfigs, filterBySpecificity, createConfig) are not part of the
sources at hand, so they are modelled from the specification text
(sections 4.2 and 4.3), faithful to its words; each such definition says so
in its doc comment.
-/

namespace AutoConfig

abbrev RuleId := String

/-- A severity value: the numeric code used while merging (0 = off,
1 = warn, 2 = error) or its canonical string form after normalization. -/
inductive Sev where
  | num (n : Nat)
  | str (s : String)
deriving DecidableEq, Repr

/-- A rule entry value in a rules map: either a bare severity (as written
by the disabled fallback, line 222 of the source) or an array of a
severity followed by option values. -/
inductive ConfigValue where
  | sev (s : Sev)
  | arr (s : Sev) (opts : List String)
deriving DecidableEq, Repr

/-- A variant of a rule after evaluation over the corpus: its option list
(empty means severity-only) and the total number of diagnostics the
analyzer produced for it across all corpus entries. -/
structure EvVariant where
  opts : List String
  errorCount : Nat
deriving DecidableEq, Repr

/-- Specificity of a variant: one plus the number of non-severity option
values (spec section 3: specificity is assigned purely from option count). -/
def specificity (v : EvVariant) : Nat := v.opts.length + 1

/-- The variant catalog: per rule, the ordered list of option lists to
test (order is the deterministic catalog order of spec section 4.1). -/
abbrev Catalog := List (RuleId × List (List String))

/-- The registry after evaluation: per rule, the ordered list of
evaluated variants. -/
abbrev Registry := List (RuleId × List EvVariant)

/-- A rules map, as assembled at line 249 of the source: rule id to
optional entry value. -/
abbrev RulesMap := RuleId → Option ConfigValue

/-- Modelled from the spec: Registry.lintSourceCode / section 4.2
evaluate.  For every rule and variant pair the analyzer is run over every
corpus entry with only that rule active; the variant records the total
diagnostic count, and it is Failing exactly when that count is nonzero.
The analyzer collaborator is a parameter (section 6). -/
def evaluateRegistry {σ : Type} (analyzer : RuleId → List String → σ → Nat)
    (corpus : List σ) (cat : Catalog) : Registry :=
  cat.map (fun p => (p.1, p.2.map (fun opts => ⟨opts, (corpus.map (analyzer p.1 opts)).sum⟩)))

/-- A variant is Passing when the analyzer reported no diagnostics on any
corpus entry. -/
def isPassing (v : EvVariant) : Bool := v.errorCount == 0

/-- Modelled from the spec: the per-rule pruning of section 4.2
(stripFailingConfigs keeps, per rule, only the Passing variants). -/
def passingVariants (vs : List EvVariant) : List EvVariant := vs.filter isPassing

/-- Modelled from the spec: membership in the Failing-Rule Set (section 3):
every variant of the rule is Failing. -/
def isFailingRule (vs : List EvVariant) : Bool := vs.all (fun v => !(isPassing v))

/-- The config value recorded for a tested variant: error severity plus
the option values verbatim (section 6: rules entries are arrays of a
severity followed by the options). -/
def variantConfig (v : EvVariant) : ConfigValue := .arr (.num 2) v.opts

/-- The severity the disabled fallback assigns (source line 222): 2 when
the rule is in the baseline recommended error-level set, else 0. -/
def recSeverity (recRules : List RuleId) (r : RuleId) : Nat :=
  if r ∈ recRules then 2 else 0

/-- The disabledConfigs map built at source lines 219-223: every rule of
the failing registry is mapped to a bare severity, 2 if recommended else
0.  Membership in the failing registry is modelled from the spec
(getFailingRulesRegistry: rules all of whose variants are Failing). -/
def disabledConfigs (reg : Registry) (recRules : List RuleId) (r : RuleId) : Option ConfigValue :=
  match reg.lookup r with
  | some vs => if isFailingRule vs then some (.sev (.num (recSeverity recRules r))) else none
  | none => none

/-- The predicate selecting Passing variants at a given specificity. -/
def passingAt (k : Nat) (v : EvVariant) : Bool := isPassing v && specificity v == k

/-- Modelled from the spec: filterBySpecificity(k).createConfig() as the
tier of section 4.3 describes it: every rule with at least one Passing
variant at specificity k contributes one such variant, the first in
catalog order (the deterministic tie-break of section 4.3). -/
def tierConfig (reg : Registry) (k : Nat) (r : RuleId) : Option ConfigValue :=
  match reg.lookup r with
  | some vs => (vs.find? (passingAt k)).map variantConfig
  | none => none

/-- Modelled from the spec: createConfig on the pruned registry (the
singleConfigs of source line 232, the unique-survivor override of spec
section 4.3 step 5): a rule contributes exactly when it has exactly one
Passing variant overall, and then contributes that variant. -/
def singleConfigs (reg : Registry) (r : RuleId) : Option ConfigValue :=
  match reg.lookup r with
  | some vs =>
    match passingVariants vs with
    | [v] => some (variantConfig v)
    | _ => none
  | none => none

/-- One step of the Object.assign merge of source line 249: the
higher-priority (later) source wins when it has an entry. -/
def mergePriority (high low : Option ConfigValue) : Option ConfigValue :=
  match high with
  | some c => some c
  | none => low

/-- The rules map assembled at source line 249:
Object.assign({}, disabledConfigs, defaultConfigs, specThreeConfigs,
specTwoConfigs, singleConfigs) with later sources overriding earlier
ones, so the priority order is singleConfigs, then specificity 2, then
specificity 3, then specificity 1, then the disabled fallback. -/
def resolvedRules (reg : Registry) (recRules : List RuleId) (r : RuleId) : Option ConfigValue :=
  mergePriority (singleConfigs reg r)
    (mergePriority (tierConfig reg 2 r)
      (mergePriority (tierConfig reg 3 r)
        (mergePriority (tierConfig reg 1 r)
          (disabledConfigs reg recRules r))))

/-- Canonical string name of a numeric severity code, as the final
normalization pass writes it. -/
def severityName (n : Nat) : String :=
  if n = 0 then "off" else if n = 1 then "warn" else "error"

/-- Normalize one severity to its string form. -/
def normalizeSev : Sev → Sev
  | .num n => .str (severityName n)
  | .str s => .str s

/-- Normalize one rules-map value: the severity becomes a string, option
values are kept verbatim (ConfigOps.normalizeToStrings at source line 266). -/
def normalizeValue : ConfigValue → ConfigValue
  | .sev s => .sev (normalizeSev s)
  | .arr s opts => .arr (normalizeSev s) opts

/-- Normalize every entry of a rules map. -/
def normalizeRules (m : RulesMap) : RulesMap := fun r => (m r).map normalizeValue

/-!
The object store.  configureRules clones the incoming config object
(Object.assign at source line 172, a shallow copy whose rules field still
aliases the rules object of the argument), later assigns a freshly built
rules object to the clone (line 249) and normalizes that fresh object in
place (line 266).  To state the frame property about the argument we keep
rules objects in an explicit heap addressed by allocation order; a config
object is represented by the address of its rules object.
-/

/-- The heap of rules objects: address to contents, plus the next fresh
address. -/
structure Store where
  heap : Nat → RulesMap
  next : Nat

/-- A config object, represented by the heap address of its rules object
(the only field the claims inspect). -/
structure JSConfigRef where
  rulesRef : Nat
deriving DecidableEq, Repr

/-- The fatal message thrown when no file parses (source line 200). -/
def noFilesMessage : String :=
  "Automatic Configuration failed.  No files were able to be parsed."

/-- The embedding of configureRules (source lines 169-268).  External
collaborators are parameters: the corpus loader (getSourceCodeOfFiles),
the analyzer driving the registry evaluation, the baseline recommended
error-level rule set and the variant catalog.  The function clones the
config, loads the corpus, aborts when no file parsed, otherwise evaluates
the registry, assembles the merged rules map of line 249 into a freshly
allocated rules object on the clone and normalizes it in place; the store
is returned in both branches. -/
def configureRules {σ : Type} (loader : RulesMap → List String → List σ)
    (analyzer : RulesMap → RuleId → List String → σ → Nat)
    (recRules : List RuleId) (cat : Catalog) (patterns : List String)
    (store : Store) (config : JSConfigRef) : Store × Except String JSConfigRef :=
  let baseRules := store.heap config.rulesRef
  let sourceCodes := loader baseRules patterns
  if sourceCodes.length = 0 then
    (store, .error noFilesMessage)
  else
    let reg := evaluateRegistry (analyzer baseRules) sourceCodes cat
    let merged : RulesMap := resolvedRules reg recRules
    let a := store.next
    let heap1 : Nat → RulesMap := fun n => if n = a then merged else store.heap n
    let heap2 : Nat → RulesMap := fun n => if n = a then normalizeRules merged else heap1 n
    (⟨heap2, a + 1⟩, .ok ⟨a⟩)

/-!
Progress accounting.  The progress bar has BAR_TOTAL = 20 units of which
BAR_SOURCE_CODE_TOTAL = 4 are spent while loading the corpus; during the
evaluation phase every callback invocation ticks
(BAR_TOTAL - BAR_SOURCE_CODE_TOTAL) / total units (source line 209).
The cadence of the callback is modelled from the spec (section 4.2): it
fires once after each variant completes, and the increments are meant to
let the caller render determinate progress over all variant evaluations,
so total is the number of variant evaluations.
-/

/-- BAR_TOTAL of source line 170. -/
def BAR_TOTAL : ℚ := 20

/-- BAR_SOURCE_CODE_TOTAL of source line 171. -/
def BAR_SOURCE_CODE_TOTAL : ℚ := 4

/-- The number of (rule, variant) evaluations one evaluation phase
performs: every cataloged variant is evaluated once over the corpus. -/
def totalVariants (cat : Catalog) : Nat := (cat.map (fun p => p.2.length)).sum

/-- The list of progress increments ticked during the evaluation phase:
one tick of (BAR_TOTAL - BAR_SOURCE_CODE_TOTAL) / total per variant
completion (source line 209; cadence modelled from the spec,
section 4.2). -/
def evaluationTicks (cat : Catalog) : List ℚ :=
  List.replicate (totalVariants cat)
    ((BAR_TOTAL - BAR_SOURCE_CODE_TOTAL) / (totalVariants cat : ℚ))

/-- The number of variant evaluations configureRules actually performs:
zero when the corpus check aborts first, otherwise every cataloged
variant once. -/
def evaluationsPerformed {σ : Type} (loader : RulesMap → List String → List σ)
    (baseRules : RulesMap) (cat : Catalog) (patterns : List String) : Nat :=
  if (loader baseRules patterns).length = 0 then 0 else totalVariants cat

/-!
The peer-dependency cache (source lines 89-101).  The fetch collaborator
returns the peerDependencies object of a module or null when npm was not
found; a JavaScript object is always truthy and null is falsy, so the
fetched value is an Option and the cache stores, per module name, the
last value written by cache.set.  The fetch oracle is indexed by the
number of fetches already performed, so distinct network responses over
time are expressible.
-/

/-- A peerDependencies object, opaque to this code. -/
abbrev PeerDeps := List (String × String)

/-- The process-wide state of getPeerDependencies: the cache map and the
number of network fetches performed so far. -/
structure PeerState where
  cache : List (String × Option PeerDeps)
  fetchCount : Nat
deriving DecidableEq, Repr

/-- cache.set: overwrite the entry for the key or append it. -/
def cacheSet (m : String) (v : Option PeerDeps) :
    List (String × Option PeerDeps) → List (String × Option PeerDeps)
  | [] => [(m, v)]
  | (k, w) :: t => if k = m then (k, v) :: t else (k, w) :: cacheSet m v t

/-- The embedding of getPeerDependencies (source lines 89-101): read the
cache; if the stored value is absent (undefined) or falsy (null), fetch,
store the fetched value, and return it; otherwise return the cached value
without fetching. -/
def getPeerDependencies (fetch : Nat → String → Option PeerDeps)
    (m : String) (s : PeerState) : Option PeerDeps × PeerState :=
  match s.cache.lookup m with
  | some (some v) => (some v, s)
  | _ =>
    let r := fetch s.fetchCount m
    (r, ⟨cacheSet m r s.cache, s.fetchCount + 1⟩)

/-- Run a sequence of getPeerDependencies calls, threading the state and
discarding the returned values. -/
def runCalls (fetch : Nat → String → Option PeerDeps) :
    List String → PeerState → PeerState
  | [], s => s
  | m :: ms, s => runCalls fetch ms (getPeerDependencies fetch m s).2

/-! Helper lemmas about the merge and the tier maps. -/

theorem mergePriority_some (c : ConfigValue) (b : Option ConfigValue) :
    mergePriority (some c) b = some c := rfl

theorem mergePriority_none (b : Option ConfigValue) :
    mergePriority none b = b := rfl

theorem mergePriority_eq_none_iff (a b : Option ConfigValue) :
    mergePriority a b = none ↔ a = none ∧ b = none := by
  cases a <;> simp [mergePriority]

theorem singleConfigs_eq_none (reg : Registry) (r : RuleId) (vs : List EvVariant)
    (hlk : reg.lookup r = some vs) (hne : (passingVariants vs).length ≠ 1) :
    singleConfigs reg r = none := by
  unfold singleConfigs
  rw [hlk]
  show (match passingVariants vs with
    | [v] => some (variantConfig v)
    | _ => none) = none
  match h : passingVariants vs with
  | [] => rfl
  | [v] => rw [h] at hne; simp at hne
  | v :: w :: t => rfl

theorem tierConfig_eq_find (reg : Registry) (k : Nat) (r : RuleId) (vs : List EvVariant)
    (hlk : reg.lookup r = some vs) :
    tierConfig reg k r = (vs.find? (passingAt k)).map variantConfig := by
  unfold tierConfig
  rw [hlk]

theorem tierConfig_isSome (reg : Registry) (k : Nat) (r : RuleId) (vs : List EvVariant)
    (hlk : reg.lookup r = some vs) (v : EvVariant) (hv : v ∈ vs)
    (hp : passingAt k v = true) : (tierConfig reg k r).isSome := by
  rw [tierConfig_eq_find reg k r vs hlk]
  cases hf : vs.find? (passingAt k) with
  | none =>
    rw [List.find?_eq_none] at hf
    exact absurd hp (by simpa using hf v hv)
  | some w => simp

theorem find?_spec (vs : List EvVariant) (k : Nat) (v : EvVariant)
    (h : vs.find? (passingAt k) = some v) :
    v ∈ vs ∧ isPassing v = true ∧ specificity v = k := by
  have hm := List.mem_of_find?_eq_some h
  have hp := List.find?_some h
  unfold passingAt at hp
  simp only [Bool.and_eq_true, beq_iff_eq] at hp
  exact ⟨hm, hp.1, hp.2⟩

theorem singleConfigs_eq_some (reg : Registry) (r : RuleId) (vs : List EvVariant)
    (v : EvVariant) (hlk : reg.lookup r = some vs) (h : passingVariants vs = [v]) :
    singleConfigs reg r = some (variantConfig v) := by
  unfold singleConfigs
  rw [hlk]
  show (match passingVariants vs with
    | [v] => some (variantConfig v)
    | _ => none) = some (variantConfig v)
  rw [h]

theorem passingVariants_eq_nil (vs : List EvVariant)
    (hall : ∀ v ∈ vs, isPassing v = false) : passingVariants vs = [] := by
  unfold passingVariants
  rw [List.filter_eq_nil_iff]
  intro v hv
  simp [hall v hv]

theorem tierConfig_eq_none_of_failing (reg : Registry) (k : Nat) (r : RuleId)
    (vs : List EvVariant) (hlk : reg.lookup r = some vs)
    (hall : ∀ v ∈ vs, isPassing v = false) : tierConfig reg k r = none := by
  rw [tierConfig_eq_find reg k r vs hlk]
  have : vs.find? (passingAt k) = none := by
    rw [List.find?_eq_none]
    intro v hv
    simp [passingAt, hall v hv]
  rw [this]
  rfl

theorem disabledConfigs_eq_some (reg : Registry) (recRules : List RuleId) (r : RuleId)
    (vs : List EvVariant) (hlk : reg.lookup r = some vs)
    (hall : ∀ v ∈ vs, isPassing v = false) :
    disabledConfigs reg recRules r = some (.sev (.num (recSeverity recRules r))) := by
  unfold disabledConfigs
  rw [hlk]
  have hf : isFailingRule vs = true := by
    unfold isFailingRule
    rw [List.all_eq_true]
    intro v hv
    simp [hall v hv]
  show (if isFailingRule vs = true
    then some (ConfigValue.sev (Sev.num (recSeverity recRules r)))
    else none) = some (ConfigValue.sev (Sev.num (recSeverity recRules r)))
  rw [if_pos hf]

/-! The claim theorems. -/

/-- C3.  Disabled fallback: a rule present in the registry with zero
Passing variants resolves to a bare severity with no option values:
numeric 2 (error) when the rule is in the baseline recommended error-level
set, numeric 0 (off) otherwise; the final normalization pass renders these
entries as the strings error and off, still without options. -/
theorem disabled_fallback (reg : Registry) (recRules : List RuleId) (r : RuleId)
    (vs : List EvVariant) (hlk : reg.lookup r = some vs)
    (hall : ∀ v ∈ vs, isPassing v = false) :
    resolvedRules reg recRules r =
      some (.sev (.num (if r ∈ recRules then 2 else 0))) ∧
    normalizeRules (resolvedRules reg recRules) r =
      some (.sev (.str (if r ∈ recRules then "error" else "off"))) := by
  have hnil := passingVariants_eq_nil vs hall
  have h1 := singleConfigs_eq_none reg r vs hlk (by rw [hnil]; simp)
  have h2 := tierConfig_eq_none_of_failing reg 2 r vs hlk hall
  have h3 := tierConfig_eq_none_of_failing reg 3 r vs hlk hall
  have h4 := tierConfig_eq_none_of_failing reg 1 r vs hlk hall
  have h5 := disabledConfigs_eq_some reg recRules r vs hlk hall
  have hres : resolvedRules reg recRules r =
      some (.sev (.num (recSeverity recRules r))) := by
    unfold resolvedRules
    rw [h1, h2, h3, h4, h5]
    rfl
  constructor
  · rw [hres]
    unfold recSeverity
    rfl
  · rw [normalizeRules, hres]
    unfold recSeverity
    by_cases hrec : r ∈ recRules <;>
      simp [hrec, normalizeValue, normalizeSev, severityName]

/-- C2.  Unique-survivor override: a rule with exactly one Passing variant
across all specificity levels resolves to exactly that variant, its
options verbatim, whatever its specificity: the singleConfigs source is
merged last in the Object.assign of source line 249 and therefore
overrides every tier. -/
theorem unique_survivor_override (reg : Registry) (recRules : List RuleId)
    (r : RuleId) (vs : List EvVariant) (v : EvVariant)
    (hlk : reg.lookup r = some vs) (hone : passingVariants vs = [v]) :
    resolvedRules reg recRules r = some (ConfigValue.arr (Sev.num 2) v.opts) := by
  have h1 := singleConfigs_eq_some reg r vs v hlk hone
  unfold resolvedRules
  rw [h1]
  rfl

theorem filter_passingAt_le (vs : List EvVariant) (k : Nat) :
    (vs.filter (passingAt k)).length ≤ (passingVariants vs).length := by
  refine List.Sublist.length_le (List.monotone_filter_right vs ?_)
  intro v hv
  unfold passingAt at hv
  exact (Bool.and_eq_true _ _).mp hv |>.1

theorem find?_passingAt_eq_some (vs : List EvVariant) (k : Nat)
    (h : 1 ≤ (vs.filter (passingAt k)).length) :
    ∃ w, vs.find? (passingAt k) = some w := by
  rw [← Option.isSome_iff_exists, List.find?_isSome]
  have hpos : 0 < (vs.filter (passingAt k)).length := h
  obtain ⟨w, hw⟩ := List.exists_mem_of_length_pos hpos
  have := List.mem_filter.mp hw
  exact ⟨w, this.1, this.2⟩

/-- C1.  Sweet-spot priority: a rule with a Passing variant at
specificity 2 and a Passing variant at specificity 3 (and not exactly one
Passing variant overall) resolves to a specificity-2 variant — the
specTwoConfigs source is assigned after specThreeConfigs at source line
249, so the two-option tier overwrites the three-option tier — and the
chosen entry is not the config of any specificity-3 variant. -/
theorem sweet_spot_priority (reg : Registry) (recRules : List RuleId) (r : RuleId)
    (vs : List EvVariant) (hlk : reg.lookup r = some vs)
    (h2 : ∃ v ∈ vs, passingAt 2 v = true)
    (_h3 : ∃ v ∈ vs, passingAt 3 v = true)
    (hne : (passingVariants vs).length ≠ 1) :
    ∃ c, resolvedRules reg recRules r = some c ∧
      (∃ v ∈ vs, isPassing v = true ∧ specificity v = 2 ∧ variantConfig v = c) ∧
      (∀ v ∈ vs, specificity v = 3 → variantConfig v ≠ c) := by
  obtain ⟨v2, hv2m, hv2p⟩ := h2
  have hs := singleConfigs_eq_none reg r vs hlk hne
  have hiss := tierConfig_isSome reg 2 r vs hlk v2 hv2m hv2p
  cases hf : vs.find? (passingAt 2) with
  | none =>
    rw [tierConfig_eq_find reg 2 r vs hlk, hf] at hiss
    simp at hiss
  | some w =>
    obtain ⟨hwm, hwp, hwk⟩ := find?_spec vs 2 w hf
    refine ⟨variantConfig w, ?_, ⟨w, hwm, hwp, hwk, rfl⟩, ?_⟩
    · unfold resolvedRules
      rw [hs, tierConfig_eq_find reg 2 r vs hlk, hf]
      rfl
    · intro u _ hu3 heq
      have hopts : u.opts = w.opts := by
        simpa [variantConfig] using heq
      unfold specificity at hu3 hwk
      rw [hopts] at hu3
      omega

/-- C6.  Deterministic tie-break within a tier: when two or more Passing
variants share the specificity of the tier that contributes the entry
for the rule (no higher-priority source contributing), the entry is the
first Passing variant of that specificity in catalog order — stated for
the contributing tier being specificity 2, 3 (when tier 2 is empty for
the rule), and 1 (when tiers 2 and 3 are empty for the rule).  The
embedding is a pure function of the registry, so the choice is the same
on every run. -/
theorem tier_tie_break (reg : Registry) (recRules : List RuleId) (r : RuleId)
    (vs : List EvVariant) (hlk : reg.lookup r = some vs) :
    (2 ≤ (vs.filter (passingAt 2)).length →
      resolvedRules reg recRules r = (vs.find? (passingAt 2)).map variantConfig)
    ∧ (tierConfig reg 2 r = none →
      2 ≤ (vs.filter (passingAt 3)).length →
      resolvedRules reg recRules r = (vs.find? (passingAt 3)).map variantConfig)
    ∧ (tierConfig reg 2 r = none → tierConfig reg 3 r = none →
      2 ≤ (vs.filter (passingAt 1)).length →
      resolvedRules reg recRules r = (vs.find? (passingAt 1)).map variantConfig) := by
  have hsingle : ∀ k : Nat, 2 ≤ (vs.filter (passingAt k)).length →
      singleConfigs reg r = none := by
    intro k hk
    refine singleConfigs_eq_none reg r vs hlk ?_
    have := filter_passingAt_le vs k
    omega
  refine ⟨?_, ?_, ?_⟩
  · intro hk
    obtain ⟨w, hf⟩ := find?_passingAt_eq_some vs 2 (by omega)
    unfold resolvedRules
    rw [hsingle 2 hk, tierConfig_eq_find reg 2 r vs hlk, hf]
    rfl
  · intro h2n hk
    obtain ⟨w, hf⟩ := find?_passingAt_eq_some vs 3 (by omega)
    unfold resolvedRules
    rw [hsingle 3 hk, h2n, tierConfig_eq_find reg 3 r vs hlk, hf]
    rfl
  · intro h2n h3n hk
    obtain ⟨w, hf⟩ := find?_passingAt_eq_some vs 1 (by omega)
    unfold resolvedRules
    rw [hsingle 1 hk, h2n, h3n, tierConfig_eq_find reg 1 r vs hlk, hf]
    rfl

theorem resolvedRules_eq_none_iff (reg : Registry) (recRules : List RuleId) (r : RuleId) :
    resolvedRules reg recRules r = none ↔
      singleConfigs reg r = none ∧ tierConfig reg 2 r = none ∧
      tierConfig reg 3 r = none ∧ tierConfig reg 1 r = none ∧
      disabledConfigs reg recRules r = none := by
  unfold resolvedRules
  simp [mergePriority_eq_none_iff, and_assoc]

theorem lookup_none_components (reg : Registry) (recRules : List RuleId) (r : RuleId)
    (h : reg.lookup r = none) : resolvedRules reg recRules r = none := by
  rw [resolvedRules_eq_none_iff]
  refine ⟨?_, ?_, ?_, ?_, ?_⟩ <;>
    first
    | (unfold singleConfigs; rw [h])
    | (unfold tierConfig; rw [h])
    | (unfold disabledConfigs; rw [h])

/-- The fixture for the C5 counterexample: a single rule whose only
variant produces a diagnostic on the one corpus entry, with an analyzer
that always reports one diagnostic. -/
def analyzerAllFail : RuleId → List String → Nat → Nat := fun _ _ _ => 1

/-- The registry evaluated from that fixture: rule foo, severity-only
variant, one diagnostic. -/
def regAllFail : Registry := evaluateRegistry analyzerAllFail [0] [("foo", [[]])]

/-- C5 counterexample.  The claim says a non-recommended rule all of
whose variants fail has no entry in the resolved rules map; on the code
every rule of the failing registry receives an entry (severity 0 when not
recommended, source line 222), so the rule foo — zero Passing variants,
not in the recommended set — does get an entry. -/
theorem resolved_domain_counterexample :
    regAllFail.lookup "foo" = some [⟨[], 1⟩] ∧
    passingVariants [⟨[], 1⟩] = [] ∧
    ¬ ("foo" ∈ ([] : List RuleId)) ∧
    resolvedRules regAllFail [] "foo" = some (.sev (.num 0)) := by
  decide

/-- C5, amended.  The resolved rules map (a function, hence at most one
entry per rule) has an entry for a rule exactly when the rule is in the
registry at all, provided every variant has at most two options (the
observed option catalog of spec section 3): rules with a Passing variant
are covered by the unique-survivor source or a specificity tier, and
every rule with zero Passing variants — recommended or not — receives a
severity entry from the disabled fallback. -/
theorem resolved_domain (reg : Registry) (recRules : List RuleId) (r : RuleId) :
    (∀ vs, reg.lookup r = some vs → (∀ v ∈ vs, v.opts.length ≤ 2) →
      resolvedRules reg recRules r ≠ none)
    ∧ (reg.lookup r = none → resolvedRules reg recRules r = none) := by
  constructor
  · intro vs hlk hle hnone
    rw [resolvedRules_eq_none_iff] at hnone
    obtain ⟨hn1, hn2, hn3, hn4, hn5⟩ := hnone
    match h : passingVariants vs with
    | [] =>
      have hall : ∀ v ∈ vs, isPassing v = false := by
        intro v hv
        have := List.filter_eq_nil_iff.mp h v hv
        simpa using this
      rw [disabledConfigs_eq_some reg recRules r vs hlk hall] at hn5
      exact Option.noConfusion hn5
    | [v] =>
      rw [singleConfigs_eq_some reg r vs v hlk h] at hn1
      exact Option.noConfusion hn1
    | v :: w :: t =>
      have hvmem : v ∈ passingVariants vs := by rw [h]; exact List.mem_cons_self v _
      have hvf := List.mem_filter.mp hvmem
      have hvs : v ∈ vs := hvf.1
      have hvp : isPassing v = true := hvf.2
      have hk3 : specificity v = 1 ∨ specificity v = 2 ∨ specificity v = 3 := by
        have := hle v hvs
        unfold specificity
        omega
      have hpa : passingAt (specificity v) v = true := by
        simp [passingAt, hvp]
      rcases hk3 with hk | hk | hk
      · have := tierConfig_isSome reg 1 r vs hlk v hvs (by rw [← hk]; exact hpa)
        rw [hn4] at this
        exact Bool.noConfusion this
      · have := tierConfig_isSome reg 2 r vs hlk v hvs (by rw [← hk]; exact hpa)
        rw [hn2] at this
        exact Bool.noConfusion this
      · have := tierConfig_isSome reg 3 r vs hlk v hvs (by rw [← hk]; exact hpa)
        rw [hn3] at this
        exact Bool.noConfusion this
  · exact lookup_none_components reg recRules r

/-- C4.  Fatal abort on empty corpus: when the corpus loader yields zero
parsed files, configureRules returns the error with the no-files-parsed
message, the store is untouched, no configuration object is produced, and
zero variant evaluations are performed — the throw at source line 200
precedes registry creation and evaluation. -/
theorem empty_corpus_aborts {σ : Type} (loader : RulesMap → List String → List σ)
    (analyzer : RulesMap → RuleId → List String → σ → Nat)
    (recRules : List RuleId) (cat : Catalog) (patterns : List String)
    (store : Store) (config : JSConfigRef)
    (h : loader (store.heap config.rulesRef) patterns = []) :
    configureRules loader analyzer recRules cat patterns store config =
      (store, .error noFilesMessage)
    ∧ evaluationsPerformed loader (store.heap config.rulesRef) cat patterns = 0 := by
  constructor
  · simp only [configureRules]
    rw [h]
    rfl
  · simp only [evaluationsPerformed]
    rw [h]
    rfl

/-- C7.  Idempotent re-evaluation: with a deterministic analyzer, running
the evaluation on an unchanged corpus and catalog, and the resolution
pipeline on unchanged inputs, yields the same per-variant statuses and
the same configuration both times — the whole pipeline is a pure function
of its inputs. -/
theorem idempotent_reevaluation {σ : Type}
    (analyzer : RuleId → List String → σ → Nat)
    (corpus corpus2 : List σ) (cat cat2 : Catalog)
    (loader : RulesMap → List String → List σ)
    (fullAnalyzer : RulesMap → RuleId → List String → σ → Nat)
    (recRules : List RuleId) (patterns : List String)
    (store : Store) (config : JSConfigRef)
    (hc : corpus2 = corpus) (hk : cat2 = cat) :
    evaluateRegistry analyzer corpus2 cat2 = evaluateRegistry analyzer corpus cat
    ∧ configureRules loader fullAnalyzer recRules cat2 patterns store config =
      configureRules loader fullAnalyzer recRules cat patterns store config := by
  subst hc
  subst hk
  exact ⟨rfl, rfl⟩

/-- C9.  The caller config is not mutated: configureRules writes only to
the freshly allocated rules object (the clone of source line 172 aliases
the argument rules object, but the fresh merge result is assigned to the
clone before the in-place normalization, source lines 249 and 266), so
after the call the rules object of the argument holds exactly the entries
it held before, and a returned config carries a rules object at a new
address. -/
theorem config_not_mutated {σ : Type} (loader : RulesMap → List String → List σ)
    (analyzer : RulesMap → RuleId → List String → σ → Nat)
    (recRules : List RuleId) (cat : Catalog) (patterns : List String)
    (store : Store) (config : JSConfigRef)
    (hv : config.rulesRef < store.next) :
    (configureRules loader analyzer recRules cat patterns store config).1.heap
        config.rulesRef = store.heap config.rulesRef
    ∧ ∀ ref, (configureRules loader analyzer recRules cat patterns store config).2 =
        .ok ref → ref.rulesRef ≠ config.rulesRef := by
  unfold configureRules
  by_cases h : (loader (store.heap config.rulesRef) patterns).length = 0
  · rw [if_pos h]
    exact ⟨rfl, by intro ref href; exact Except.noConfusion href⟩
  · rw [if_neg h]
    constructor
    · show (if config.rulesRef = store.next then _ else
        if config.rulesRef = store.next then _ else store.heap config.rulesRef) =
          store.heap config.rulesRef
      rw [if_neg (Nat.ne_of_lt hv), if_neg (Nat.ne_of_lt hv)]
    · intro ref href
      have : ref = ⟨store.next⟩ := by
        simpa using href.symm
      rw [this]
      exact fun hcontra => absurd hcontra.symm (Nat.ne_of_lt hv)

/-- A two-variant catalog used as concrete input for the progress
accounting claim. -/
def catTwo : Catalog := [("r", [[], ["a"]])]

/-- C8 counterexample.  The claim says the evaluation-phase tick
increments sum to the number of (rule, variant) evaluations; on the code
each tick is (BAR_TOTAL - BAR_SOURCE_CODE_TOTAL) / total of the progress
bar (source line 209), so over the two evaluations of this catalog the
increments sum to 16 bar units, not 2 — far outside any rounding
tolerance. -/
theorem progress_sum_counterexample :
    totalVariants catTwo = 2
    ∧ (evaluationTicks catTwo).sum = 16
    ∧ (evaluationTicks catTwo).sum ≠ (totalVariants catTwo : ℚ) := by
  refine ⟨rfl, ?_, ?_⟩ <;>
    norm_num [evaluationTicks, totalVariants, catTwo, BAR_TOTAL, BAR_SOURCE_CODE_TOTAL]

/-- C8, amended.  Over one evaluation phase the number of tick increments
equals the number of (rule, variant) evaluations performed — one tick per
variant completion — and the increments sum exactly (in exact rational
arithmetic) to the evaluation-phase share of the progress bar,
BAR_TOTAL - BAR_SOURCE_CODE_TOTAL = 16 bar units, not to the number of
evaluations. -/
theorem progress_accounting (cat : Catalog) (h : totalVariants cat ≠ 0) :
    (evaluationTicks cat).length = totalVariants cat
    ∧ (evaluationTicks cat).sum = BAR_TOTAL - BAR_SOURCE_CODE_TOTAL := by
  constructor
  · simp [evaluationTicks]
  · simp only [evaluationTicks, List.sum_replicate, nsmul_eq_mul]
    rw [mul_div_cancel₀]
    exact Nat.cast_ne_zero.mpr h

/-! Lemmas about the peer-dependency cache. -/

theorem lookup_cacheSet_self (m : String) (v : Option PeerDeps)
    (l : List (String × Option PeerDeps)) : (cacheSet m v l).lookup m = some v := by
  induction l with
  | nil => simp [cacheSet, List.lookup]
  | cons kv t ih =>
    obtain ⟨k, w⟩ := kv
    by_cases hk : k = m
    · subst hk
      simp [cacheSet, List.lookup]
    · have hbeq : (m == k) = false := by
        simp [Ne.symm hk]
      simp [cacheSet, hk, List.lookup, hbeq, ih]

theorem lookup_cacheSet_ne (m k : String) (v : Option PeerDeps)
    (l : List (String × Option PeerDeps)) (h : k ≠ m) :
    (cacheSet m v l).lookup k = l.lookup k := by
  induction l with
  | nil =>
    have hbeq : (k == m) = false := by simp [h]
    simp [cacheSet, List.lookup, hbeq]
  | cons kv t ih =>
    obtain ⟨k2, w⟩ := kv
    by_cases hk : k2 = m
    · subst hk
      have hbeq : (k == k2) = false := by simp [h]
      simp [cacheSet, List.lookup, hbeq]
    · simp [cacheSet, hk, List.lookup, ih]

theorem getPeer_cache_after_truthy (fetch : Nat → String → Option PeerDeps)
    (m : String) (s : PeerState) (v : PeerDeps) (s1 : PeerState)
    (h : getPeerDependencies fetch m s = (some v, s1)) :
    s1.cache.lookup m = some (some v) := by
  unfold getPeerDependencies at h
  cases hc : s.cache.lookup m with
  | none =>
    rw [hc] at h
    simp only at h
    obtain ⟨h1, h2⟩ := Prod.mk.injEq .. ▸ h
    rw [← h2]
    simp only
    rw [lookup_cacheSet_self, h1]
  | some o =>
    cases o with
    | none =>
      rw [hc] at h
      simp only at h
      obtain ⟨h1, h2⟩ := Prod.mk.injEq .. ▸ h
      rw [← h2]
      simp only
      rw [lookup_cacheSet_self, h1]
    | some w =>
      rw [hc] at h
      simp only at h
      obtain ⟨h1, h2⟩ := Prod.mk.injEq .. ▸ h
      rw [← h2, hc]
      rw [Option.some_inj.mp h1]

theorem getPeer_preserves_cached (fetch : Nat → String → Option PeerDeps)
    (m m2 : String) (s : PeerState) (v : PeerDeps)
    (h : s.cache.lookup m = some (some v)) :
    ((getPeerDependencies fetch m2 s).2).cache.lookup m = some (some v) := by
  by_cases hm : m2 = m
  · subst hm
    unfold getPeerDependencies
    rw [h]
    exact h
  · unfold getPeerDependencies
    cases hc : s.cache.lookup m2 with
    | none =>
      simp only
      rw [lookup_cacheSet_ne _ _ _ _ (fun hcontra => hm hcontra.symm)]
      exact h
    | some o =>
      cases o with
      | none =>
        simp only
        rw [lookup_cacheSet_ne _ _ _ _ (fun hcontra => hm hcontra.symm)]
        exact h
      | some w => exact h

theorem runCalls_preserves_cached (fetch : Nat → String → Option PeerDeps)
    (m : String) (v : PeerDeps) (ms : List String) :
    ∀ s : PeerState, s.cache.lookup m = some (some v) →
      (runCalls fetch ms s).cache.lookup m = some (some v) := by
  induction ms with
  | nil => intro s h; exact h
  | cons m2 t ih =>
    intro s h
    exact ih _ (getPeer_preserves_cached fetch m m2 s v h)

theorem getPeer_of_cached (fetch : Nat → String → Option PeerDeps)
    (m : String) (s : PeerState) (v : PeerDeps)
    (h : s.cache.lookup m = some (some v)) :
    getPeerDependencies fetch m s = (some v, s) := by
  unfold getPeerDependencies
  rw [h]

/-- C10, amended.  Once a call to getPeerDependencies returns a truthy
value for a module, every later call for that module — after any sequence
of intervening calls — returns the same value with no further fetch (the
state, fetch counter included, is unchanged).  A falsy first result, on
the other hand, IS written to the cache map (cache.set at source line 96
runs unconditionally), but a stored falsy value never satisfies the cache
check, so the next call for the module fetches again. -/
theorem peer_dependency_cache (fetch : Nat → String → Option PeerDeps)
    (m : String) (s : PeerState) :
    (∀ v s1, getPeerDependencies fetch m s = (some v, s1) →
      ∀ ms, getPeerDependencies fetch m (runCalls fetch ms s1) =
        (some v, runCalls fetch ms s1))
    ∧ (∀ s1, getPeerDependencies fetch m s = (none, s1) →
      s1.cache.lookup m = some none
      ∧ s1.fetchCount = s.fetchCount + 1
      ∧ (getPeerDependencies fetch m s1).2.fetchCount = s1.fetchCount + 1) := by
  constructor
  · intro v s1 h ms
    have h1 := getPeer_cache_after_truthy fetch m s v s1 h
    have h2 := runCalls_preserves_cached fetch m v ms s1 h1
    exact getPeer_of_cached fetch m _ v h2
  · intro s1 h
    unfold getPeerDependencies at h
    cases hc : s.cache.lookup m with
    | none =>
      rw [hc] at h
      simp only at h
      obtain ⟨h1, h2⟩ := Prod.mk.injEq .. ▸ h
      have hcache : s1.cache.lookup m = some none := by
        rw [← h2]
        simp only
        rw [lookup_cacheSet_self, h1]
      refine ⟨hcache, by rw [← h2], ?_⟩
      unfold getPeerDependencies
      rw [hcache]
    | some o =>
      cases o with
      | none =>
        rw [hc] at h
        simp only at h
        obtain ⟨h1, h2⟩ := Prod.mk.injEq .. ▸ h
        have hcache : s1.cache.lookup m = some none := by
          rw [← h2]
          simp only
          rw [lookup_cacheSet_self, h1]
        refine ⟨hcache, by rw [← h2], ?_⟩
        unfold getPeerDependencies
        rw [hcache]
      | some w =>
        rw [hc] at h
        simp only at h
        exact absurd (Prod.mk.injEq .. ▸ h).1 (by simp)

/-- A fetch collaborator that always reports no peer dependencies found
(npm missing), the falsy case of the doc comment at source line 87. -/
def fetchNone : Nat → String → Option PeerDeps := fun _ _ => none

/-- C10 counterexample.  The claim says a falsy first result is not
cached; on the code cache.set runs unconditionally (source line 96), so
after a first call that returns null the cache map does hold an entry for
the module, mapping it to the falsy value. -/
theorem peer_cache_counterexample :
    (getPeerDependencies fetchNone "mod" ⟨[], 0⟩).1 = none
    ∧ ((getPeerDependencies fetchNone "mod" ⟨[], 0⟩).2).cache = [("mod", none)] := by
  decide

/-! Concrete fixtures for the witness theorems. -/

/-- An analyzer under which only the double-quote variants pass: the
quote-style scenario of spec section 8. -/
def analyzerQuotes : RuleId → List String → Nat → Nat := fun _ opts _ =>
  if opts = ["double"] ∨ opts = ["double", "avoidEscape"] then 0 else 1

/-- The evaluated variants of the quotes fixture. -/
def vsQuotes : List EvVariant :=
  [⟨[], 1⟩, ⟨["single"], 1⟩, ⟨["double"], 0⟩, ⟨["double", "avoidEscape"], 0⟩]

/-- The registry of the quotes fixture, built through the evaluation. -/
def regQuotes : Registry :=
  evaluateRegistry analyzerQuotes [0]
    [("quotes", [[], ["single"], ["double"], ["double", "avoidEscape"]])]

/-- An analyzer under which only the two-option variant passes. -/
def analyzerSingle : RuleId → List String → Nat → Nat := fun _ opts _ =>
  if opts = ["a", "b"] then 0 else 1

/-- The evaluated variants of the unique-survivor fixture. -/
def vsSingle : List EvVariant := [⟨[], 1⟩, ⟨["a"], 1⟩, ⟨["a", "b"], 0⟩]

/-- The registry of the unique-survivor fixture. -/
def regSingle : Registry :=
  evaluateRegistry analyzerSingle [0] [("r2", [[], ["a"], ["a", "b"]])]

/-- An analyzer under which exactly the one-option variants pass. -/
def analyzerTie : RuleId → List String → Nat → Nat := fun _ opts _ =>
  if opts.length = 1 then 0 else 1

/-- The evaluated variants of the tie-break fixture: two Passing
variants at specificity 2. -/
def vsTie : List EvVariant := [⟨[], 1⟩, ⟨["a"], 0⟩, ⟨["b"], 0⟩]

/-- The registry of the tie-break fixture. -/
def regTie : Registry := evaluateRegistry analyzerTie [0] [("r6", [[], ["a"], ["b"]])]

/-- The evaluated variants of the all-failing fixture. -/
def vsAllFail : List EvVariant := [⟨[], 1⟩]

/-- A corpus loader producing one parsed file. -/
def loaderOne : RulesMap → List String → List Nat := fun _ _ => [0]

/-- A corpus loader producing zero parsed files. -/
def loaderEmpty : RulesMap → List String → List Nat := fun _ _ => []

/-- The tie-break analyzer with the base-configuration argument of the
full pipeline. -/
def fullAnalyzerTie : RulesMap → RuleId → List String → Nat → Nat := fun _ => analyzerTie

/-- A one-object store: address 0 holds an empty rules map. -/
def store1 : Store := ⟨fun _ => fun _ => none, 1⟩

/-- A fetch collaborator that always returns the same peer-dependencies
object. -/
def fetchSome : Nat → String → Option PeerDeps := fun _ _ => some [("eslint", "7.0.0")]

/-- The peer-dependencies object returned by fetchSome. -/
def depsW : PeerDeps := [("eslint", "7.0.0")]

/-- The state after a first truthy call for pkg from the empty state. -/
def stateTruthy : PeerState := ⟨[("pkg", some depsW)], 1⟩

/-- The state after a first falsy call for m2 from the empty state. -/
def stateFalsy : PeerState := ⟨[("m2", none)], 1⟩

/-! Witness theorems: each applies its claim theorem at a concrete
input, discharging every hypothesis there. -/

/-- Witness for the sweet-spot claim at the quotes fixture. -/
theorem sweet_spot_priority_witness :
    ∃ c, resolvedRules regQuotes [] "quotes" = some c ∧
      (∃ v ∈ vsQuotes, isPassing v = true ∧ specificity v = 2 ∧ variantConfig v = c) ∧
      (∀ v ∈ vsQuotes, specificity v = 3 → variantConfig v ≠ c) :=
  sweet_spot_priority regQuotes [] "quotes" vsQuotes (by decide) (by decide)
    (by decide) (by decide)

/-- Witness for the unique-survivor claim: the sole Passing variant has
specificity 3 and is still chosen, options verbatim. -/
theorem unique_survivor_witness :
    resolvedRules regSingle [] "r2" = some (ConfigValue.arr (Sev.num 2) ["a", "b"]) :=
  unique_survivor_override regSingle [] "r2" vsSingle ⟨["a", "b"], 0⟩ (by decide) (by decide)

/-- Witness for the disabled-fallback claim at a recommended all-failing
rule. -/
theorem disabled_fallback_witness :
    resolvedRules regAllFail ["foo"] "foo" =
      some (.sev (.num (if "foo" ∈ ["foo"] then 2 else 0))) ∧
    normalizeRules (resolvedRules regAllFail ["foo"]) "foo" =
      some (.sev (.str (if "foo" ∈ ["foo"] then "error" else "off"))) :=
  disabled_fallback regAllFail ["foo"] "foo" vsAllFail (by decide) (by decide)

/-- Witness for the empty-corpus abort claim. -/
theorem empty_corpus_aborts_witness :
    configureRules loaderEmpty fullAnalyzerTie [] catTwo ["src"] store1 ⟨0⟩ =
      (store1, .error noFilesMessage)
    ∧ evaluationsPerformed loaderEmpty (store1.heap 0) catTwo ["src"] = 0 :=
  empty_corpus_aborts loaderEmpty fullAnalyzerTie [] catTwo ["src"] store1 ⟨0⟩ rfl

/-- Witness for the domain claim, amended form: the recommended
all-failing rule has an entry, an unknown rule has none. -/
theorem resolved_domain_witness :
    resolvedRules regAllFail ["foo"] "foo" ≠ none
    ∧ resolvedRules regAllFail [] "bar" = none :=
  ⟨(resolved_domain regAllFail ["foo"] "foo").1 vsAllFail (by decide) (by decide),
   (resolved_domain regAllFail [] "bar").2 (by decide)⟩

/-- Witness for the tie-break claim: of the two Passing specificity-2
variants the first in catalog order is chosen. -/
theorem tier_tie_break_witness :
    resolvedRules regTie [] "r6" = (vsTie.find? (passingAt 2)).map variantConfig :=
  (tier_tie_break regTie [] "r6" vsTie (by decide)).1 (by decide)

/-- Witness for the idempotence claim at concrete inputs. -/
theorem idempotent_reevaluation_witness :
    evaluateRegistry analyzerTie [0] catTwo = evaluateRegistry analyzerTie [0] catTwo
    ∧ configureRules loaderOne fullAnalyzerTie [] catTwo ["src"] store1 ⟨0⟩ =
      configureRules loaderOne fullAnalyzerTie [] catTwo ["src"] store1 ⟨0⟩ :=
  idempotent_reevaluation analyzerTie [0] [0] catTwo catTwo loaderOne fullAnalyzerTie
    [] ["src"] store1 ⟨0⟩ rfl rfl

/-- Witness for the progress-accounting claim, amended form. -/
theorem progress_accounting_witness :
    (evaluationTicks catTwo).length = totalVariants catTwo
    ∧ (evaluationTicks catTwo).sum = BAR_TOTAL - BAR_SOURCE_CODE_TOTAL :=
  progress_accounting catTwo (by decide)

/-- Witness for the frame claim: a successful run leaves the rules object
of the argument untouched and returns a fresh one. -/
theorem config_not_mutated_witness :
    (configureRules loaderOne fullAnalyzerTie [] catTwo ["src"] store1 ⟨0⟩).1.heap 0 =
      store1.heap 0
    ∧ ∀ ref, (configureRules loaderOne fullAnalyzerTie [] catTwo ["src"] store1 ⟨0⟩).2 =
        .ok ref → ref.rulesRef ≠ 0 :=
  config_not_mutated loaderOne fullAnalyzerTie [] catTwo ["src"] store1 ⟨0⟩ (by decide)

/-- Witness for the cache-coherence claim: a truthy result survives
intervening calls without re-fetching, and a falsy result is stored yet
re-fetched. -/
theorem peer_dependency_cache_witness :
    (getPeerDependencies fetchSome "pkg" (runCalls fetchSome ["other", "pkg"] stateTruthy) =
      (some depsW, runCalls fetchSome ["other", "pkg"] stateTruthy))
    ∧ (stateFalsy.cache.lookup "m2" = some none
      ∧ stateFalsy.fetchCount = (0 : Nat) + 1
      ∧ (getPeerDependencies fetchNone "m2" stateFalsy).2.fetchCount =
        stateFalsy.fetchCount + 1) :=
  ⟨(peer_dependency_cache fetchSome "pkg" ⟨[], 0⟩).1 depsW stateTruthy (by decide)
      ["other", "pkg"],
   (peer_dependency_cache fetchNone "m2" ⟨[], 0⟩).2 stateFalsy (by decide)⟩

end AutoConfig
